import Mathlib

/-!
Verification of the ETA journey planner (`src/app/plan_route.py`).

The Python module is shallowly embedded below.  Pure functions of the source
become Lean functions; Python exceptions become explicit `Except` error values
(`PlanError` enumerates every exception the module can raise); floating point
coordinates are modelled over `ℚ`; the external collaborators imported from
`data_loader` (the spatial index `ALL_STOPS_TREE`, the lookup dicts
`COORD_STOPS` / `STOP_COORDS`, the multigraph `GRAPH`) are passed explicitly
through an `Env`, since `data_loader` is not part of the sources under
verification.  The geopy geodesic `distance(...).meters` call is modelled by an
arbitrary distance function `dist : Coord → Coord → ℚ`.
-/

namespace ETA

/-- A (latitude, longitude) pair, modelled over `ℚ` instead of IEEE floats. -/
abbrev Coord := ℚ × ℚ

/-- Opaque stop identifier (networkx node). -/
abbrev StopId := String

/-- Line identifier carried on an edge (`edge['line']`). -/
abbrev Line := String

/-- One edge of the networkx `MultiGraph GRAPH`: line `line` gives direct
service between stops `a` and `b` (undirected; parallel edges allowed). -/
structure Edge where
  a : StopId
  b : StopId
  line : Line
deriving DecidableEq

/-- The transit multigraph: the edge list, in insertion order.  (networkx keeps
nodes implicitly; `data_loader` builds the graph from edges, so the node set is
the set of edge endpoints.) -/
structure MultiGraph where
  edges : List Edge
deriving DecidableEq

/-- Node list of the graph: every edge contributes both endpoints. -/
def graphNodes (g : MultiGraph) : List StopId :=
  g.edges.flatMap (fun e => [e.a, e.b])

/-- `lines_connecting_stops` (plan_route.py lines 83-97): all `edge['line']`
values over the parallel edges `GRAPH[origin][destination]`, in edge order.
The same loop appears inlined in `parse_route` (lines 115-119). -/
def lines_connecting_stops (g : MultiGraph)
    (origin_stop_id destination_stop_id : StopId) : List Line :=
  (g.edges.filter (fun e =>
      (e.a == origin_stop_id && e.b == destination_stop_id) ||
      (e.a == destination_stop_id && e.b == origin_stop_id))).map (fun e => e.line)

/-- Two stops are adjacent when at least one edge connects them, i.e. when
`GRAPH[u][v]` would not raise `KeyError`. -/
def Adj (g : MultiGraph) (u v : StopId) : Prop :=
  lines_connecting_stops g u v ≠ []

instance (g : MultiGraph) (u v : StopId) : Decidable (Adj g u v) :=
  inferInstanceAs (Decidable (_ ≠ _))

/-- The neighbour view `GRAPH[u]`: opposite endpoints of every edge incident
to `u`, in edge order. -/
def neighbors (g : MultiGraph) (u : StopId) : List StopId :=
  g.edges.filterMap (fun e =>
    if e.a = u then some e.b else if e.b = u then some e.a else none)

/-- Breadth-first search returning a stop sequence, modelling the unweighted
search performed by `nx.shortest_path`.  The queue holds candidate paths in
reverse (head = frontier node, last = source); nodes are marked visited when
enqueued.  The fuel argument bounds the number of dequeues; a node enters the
queue at most once per incident edge, so `(graphNodes g).length + 1`
(`= 2·|edges| + 1`) dequeues always suffice. -/
def bfsAux (g : MultiGraph) (target : StopId) :
    Nat → List (List StopId) → List StopId → Option (List StopId)
  | 0, _, _ => none
  | _ + 1, [], _ => none
  | fuel + 1, p :: queue, visited =>
    match p with
    | [] => none
    | u :: _ =>
      if u = target then some p.reverse
      else
        let fresh := (neighbors g u).filter (fun v => !(visited.contains v))
        bfsAux g target fuel (queue ++ fresh.map (fun v => v :: p)) (visited ++ fresh)

/-- Unweighted shortest-path search from `source` to `target`. -/
def bfs (g : MultiGraph) (source target : StopId) : Option (List StopId) :=
  bfsAux g target ((graphNodes g).length + 1) [[source]] [source]

/-- Every Python exception the module can raise, as an explicit error value. -/
inductive PlanError where
  /-- networkx `NodeNotFound`: source or target is not a node of the graph. -/
  | nodeNotFound
  /-- networkx `NetworkXNoPath`: no path between source and target. -/
  | networkXNoPath
  /-- Python `ValueError`: `min()` arg is an empty sequence (line 32). -/
  | valueErrorMinEmpty
  /-- numpy `IndexError` on `tree.data[idx]` (line 55). -/
  | indexError
  /-- `KeyError` from `GRAPH[prev_stop][next_stop]` (line 117). -/
  | keyErrorNoEdge
  /-- `RuntimeError` from `next()` on an exhausted iterator inside the
  generator (line 111, PEP 479). -/
  | runtimeErrorEmptyPath
deriving DecidableEq

/-- `nx.shortest_path(graph, source, target)` for an unweighted graph: raises
`NodeNotFound` when either endpoint is missing, `NetworkXNoPath` when the
endpoints are disconnected, otherwise returns a shortest stop sequence. -/
def nx_shortest_path (g : MultiGraph) (source target : StopId) :
    Except PlanError (List StopId) :=
  if source ∈ graphNodes g ∧ target ∈ graphNodes g then
    match bfs g source target with
    | some p => .ok p
    | none => .error .networkXNoPath
  else .error .nodeNotFound

/-- Python truthiness of the `max_changes` argument: `None` and `0` are both
falsy, so `if max_changes and ...` skips the budget check for them. -/
def pyTruthy : Option Int → Bool
  | none => false
  | some n => n != 0

/-- `journey_transits` (lines 68-80): shortest stop sequence between two stop
ids; with a truthy `max_changes`, a path needing more than `max_changes`
changes (`len(changes) - 2 > max_changes`) becomes the empty path. -/
def journey_transits (g : MultiGraph)
    (origin_stop_id destination_stop_id : StopId)
    (max_changes : Option Int) : Except PlanError (List StopId) :=
  match nx_shortest_path g origin_stop_id destination_stop_id with
  | .error e => .error e
  | .ok changes =>
    if pyTruthy max_changes && decide ((changes.length : Int) - 2 > max_changes.getD 0)
    then .ok []
    else .ok changes

/-! ### The dictionaries yielded by `parse_route`

`parse_route` yields Python dicts whose values are either a list of line
identifiers or a nested stop dict of string/number atoms.  We model such a
dict as an association list in construction order. -/

/-- An atomic value inside the nested `board` / `deboard` dicts. -/
inductive PyAtom where
  | str : String → PyAtom
  | num : ℚ → PyAtom
deriving DecidableEq

/-- A top-level value of the yielded dict: either the list of bus lines or a
nested stop dict. -/
inductive PyVal where
  | strs : List String → PyVal
  | obj : List (String × PyAtom) → PyVal
deriving DecidableEq

/-- A Python dict, as an association list in insertion order. -/
abbrev PyDict := List (String × PyVal)

/-- Key lookup on a dict. -/
def dictGetV (d : PyDict) (k : String) : Option PyVal :=
  (d.find? (fun kv => kv.1 == k)).map (fun kv => kv.2)

/-- Key lookup on a nested stop dict. -/
def objGet (o : List (String × PyAtom)) (k : String) : Option PyAtom :=
  (o.find? (fun kv => kv.1 == k)).map (fun kv => kv.2)

/-- The nested stop dict `seg[which]` (`which` is `"board"` or `"deboard"`). -/
def segStop (seg : PyDict) (which : String) : Option (List (String × PyAtom)) :=
  match dictGetV seg which with
  | some (.obj o) => some o
  | _ => none

/-- The `id` field of `seg[which]`. -/
def segStopId (seg : PyDict) (which : String) : Option String :=
  match (segStop seg which).bind (fun o => objGet o "id") with
  | some (.str s) => some s
  | _ => none

/-- The `lat` field of `seg[which]`. -/
def segStopLat (seg : PyDict) (which : String) : Option ℚ :=
  match (segStop seg which).bind (fun o => objGet o "lat") with
  | some (.num q) => some q
  | _ => none

/-- The `lng` field of `seg[which]`. -/
def segStopLng (seg : PyDict) (which : String) : Option ℚ :=
  match (segStop seg which).bind (fun o => objGet o "lng") with
  | some (.num q) => some q
  | _ => none

/-- The dict yielded by `parse_route` for one hop (lines 120-132):
`{'busses': lines, 'board': {...}, 'deboard': {...}}` with coordinates looked
up in `STOP_COORDS` (modelled by `sc`). -/
def segDict (sc : StopId → Coord) (lines : List Line)
    (prev_stop next_stop : StopId) : PyDict :=
  [("busses", .strs lines),
   ("board", .obj [("id", .str prev_stop),
                   ("lat", .num (sc prev_stop).1),
                   ("lng", .num (sc prev_stop).2)]),
   ("deboard", .obj [("id", .str next_stop),
                     ("lat", .num (sc next_stop).1),
                     ("lng", .num (sc next_stop).2)])]

/-- The loop body of `parse_route` (lines 113-134): walk the remaining stops,
and for each consecutive pair collect `GRAPH[prev_stop][next_stop]` (a
`KeyError` — i.e. no connecting edge — aborts the whole `list(parse_route(t))`
call) and yield one segment dict. -/
def parse_route_go (g : MultiGraph) (sc : StopId → Coord) :
    StopId → List StopId → Except PlanError (List PyDict)
  | _, [] => .ok []
  | prev_stop, next_stop :: rest =>
    if lines_connecting_stops g prev_stop next_stop = []
    then .error .keyErrorNoEdge
    else
      match parse_route_go g sc next_stop rest with
      | .error e => .error e
      | .ok segs =>
        .ok (segDict sc (lines_connecting_stops g prev_stop next_stop)
              prev_stop next_stop :: segs)

/-- `parse_route` (lines 100-134), fully consumed as `list(parse_route(t))`:
`prev_stop = next(changes)` raises on an empty path (PEP 479 `RuntimeError`),
then one dict per consecutive stop pair is yielded. -/
def parse_route (g : MultiGraph) (sc : StopId → Coord) :
    List StopId → Except PlanError (List PyDict)
  | [] => .error .runtimeErrorEmptyPath
  | prev_stop :: rest => parse_route_go g sc prev_stop rest

/-! ### The spatial index

`ALL_STOPS_TREE` is a `scipy.spatial.cKDTree` built in `data_loader`, which is
not among the sources under verification.  Modelled from the spec: the Spatial
Stop Index is an external collaborator whose contract (spec section 6) is
`query_k_nearest(coordinate, k) -> ordered sequence of Coordinate`, it "must
support k ≥ 1 and return fewer than k results only if fewer stops exist", the
results being the k nearest indexed stops in the index's own distance
ordering.  We model the tree as the list of indexed coordinates and its query
as index sorting by distance to the query point. -/

/-- Insert index `i` into an index list sorted by `key`, keeping order. -/
def insertByKey (key : Nat → ℚ) (i : Nat) : List Nat → List Nat
  | [] => [i]
  | j :: rest => if key i ≤ key j then i :: j :: rest else j :: insertByKey key i rest

/-- Insertion sort of an index list by `key`. -/
def sortByKey (key : Nat → ℚ) : List Nat → List Nat
  | [] => []
  | i :: rest => insertByKey key i (sortByKey key rest)

/-- Modelled from the spec: `tree.query((lat, lon), k=k)` — the indices of the
`k` indexed stops nearest to `point`, all indices when fewer than `k` stops
are indexed. -/
def tree_query (tree : List Coord) (dist : Coord → Coord → ℚ)
    (point : Coord) (k : Nat) : List Nat :=
  (sortByKey (fun i => dist point (tree.getD i (0, 0))) (List.range tree.length)).take k

/-- The result loop of `k_nearest_stop_coords` (lines 50-59): look each index
up in `tree.data` (an out-of-range index would raise `IndexError`, modelled as
`none`). -/
def pyListGet (tree : List Coord) : List Nat → Option (List Coord)
  | [] => some []
  | i :: rest =>
    match tree[i]? with
    | none => none
    | some c =>
      match pyListGet tree rest with
      | none => none
      | some cs => some (c :: cs)

/-- `k_nearest_stop_coords` (lines 40-59): query the tree for the `k` nearest
neighbours of `(lat, lon)` and read their coordinates off `tree.data`. -/
def k_nearest_stop_coords (tree : List Coord) (dist : Coord → Coord → ℚ)
    (lat lon : ℚ) (k : Nat) : Option (List Coord) :=
  pyListGet tree (tree_query tree dist (lat, lon) k)

/-! ### The planner -/

/-- The walking-distance filter comprehensions of `find_routes` (lines 18-23):
keep the candidate stops whose geodesic distance to `point` is at most
`max_walk` metres. -/
def filter_within_walk (dist : Coord → Coord → ℚ) (point : Coord)
    (stops : List Coord) (max_walk : ℚ) : List Coord :=
  stops.filter (fun s => decide (dist point s ≤ max_walk))

/-- The external state imported from `data_loader` (not under src/): the
transit graph, the indexed stop coordinates, the geodesic distance function,
and the two lookup dicts `COORD_STOPS` and `STOP_COORDS` (total per the spec's
data-model invariant). -/
structure Env where
  graph : MultiGraph
  treeStops : List Coord
  dist : Coord → Coord → ℚ
  coordStop : Coord → StopId
  stopCoords : StopId → Coord

/-- A Python list comprehension whose body may raise: left-to-right, the first
exception aborts the whole comprehension. -/
def exceptMapM (f : α → Except PlanError β) : List α → Except PlanError (List β)
  | [] => .ok []
  | x :: xs =>
    match f x with
    | .error e => .error e
    | .ok y =>
      match exceptMapM f xs with
      | .error e => .error e
      | .ok ys => .ok (y :: ys)

/-- The cross product `for origin in origin_stops for dest in destination_stops`
(lines 25-29), in comprehension order. -/
def crossPairs (origin_stops destination_stops : List Coord) :
    List (Coord × Coord) :=
  origin_stops.flatMap (fun o => destination_stops.map (fun d => (o, d)))

/-- Line 25-29: one `journey_transits` call per candidate pair, the coordinates
first translated to stop ids through `COORD_STOPS`.  Any per-pair exception
propagates. -/
def transit_options_of (env : Env)
    (origin_stops destination_stops : List Coord) :
    Except PlanError (List (List StopId)) :=
  exceptMapM
    (fun od => journey_transits env.graph (env.coordStop od.1) (env.coordStop od.2) none)
    (crossPairs origin_stops destination_stops)

/-- Python `min(transit_options, key=len)`: the first element of minimal
length, `None` (→ `ValueError`) on an empty list. -/
def pyMinByLen : List (List StopId) → Option (List StopId)
  | [] => none
  | x :: xs => some (xs.foldl (fun acc y => if y.length < acc.length then y else acc) x)

/-- Lines 31-35: keep only the options as short as the `min(..., key=len)`
element; `min` of an empty sequence raises `ValueError`. -/
def fewest_changes_filter (transit_options : List (List StopId)) :
    Except PlanError (List (List StopId)) :=
  match pyMinByLen transit_options with
  | none => .error .valueErrorMinEmpty
  | some m => .ok (transit_options.filter (fun t => t.length == m.length))

/-- `find_routes` (lines 11-37): candidate stops near origin and destination
(k fixed at 10), walking-distance filtering, per-pair path search, fewest-
changes filtering, and decomposition of each kept path. -/
def find_routes (env : Env) (origin destination : Coord) (max_walk : ℚ) :
    Except PlanError (List (List PyDict)) :=
  match k_nearest_stop_coords env.treeStops env.dist origin.1 origin.2 10 with
  | none => .error .indexError
  | some origin_stops =>
    match k_nearest_stop_coords env.treeStops env.dist destination.1 destination.2 10 with
    | none => .error .indexError
    | some destination_stops =>
      let origin_stops := filter_within_walk env.dist origin origin_stops max_walk
      let destination_stops := filter_within_walk env.dist destination destination_stops max_walk
      match transit_options_of env origin_stops destination_stops with
      | .error e => .error e
      | .ok transit_options =>
        match fewest_changes_filter transit_options with
        | .error e => .error e
        | .ok kept => exceptMapM (fun t => parse_route env.graph env.stopCoords t) kept

/-- The closed form of `parse_route` on an adjacency-respecting path: one
segment dict per consecutive stop pair. -/
def segList (g : MultiGraph) (sc : StopId → Coord) :
    StopId → List StopId → List PyDict
  | _, [] => []
  | prev_stop, next_stop :: rest =>
    segDict sc (lines_connecting_stops g prev_stop next_stop) prev_stop next_stop ::
      segList g sc next_stop rest

instance {ε α : Type} [DecidableEq ε] [DecidableEq α] : DecidableEq (Except ε α)
  | .error e, .error e' => decidable_of_iff (e = e') (by simp)
  | .ok a, .ok a' => decidable_of_iff (a = a') (by simp)
  | .error _, .ok _ => isFalse (fun h => by cases h)
  | .ok _, .error _ => isFalse (fun h => by cases h)

/-! ### Concrete instances used by witnesses and counterexamples

Concrete distance functions are lookup tables over the finitely many
coordinates involved (the geodesic distance is an external collaborator, so
any function of two coordinates is a legitimate instantiation). -/

/-- Two connected components: A—B and C—D. -/
def cGraph1 : MultiGraph := ⟨[⟨"A", "B", "L1"⟩, ⟨"C", "D", "L2"⟩]⟩

/-- Distances from the two query points (0,0) and (0,1) to the four stops of
`cEnv1`: every stop is within a 500 m walk of both. -/
def cDist1 : Coord → Coord → ℚ := fun p q =>
  if p = (0, 0) then
    (if q = (0, 0) then 0 else if q = (0, 1) then 1 else if q = (5, 0) then 5 else 6)
  else
    (if q = (0, 1) then 0 else if q = (0, 0) then 1 else if q = (5, 1) then 5 else 6)

/-- Environment whose candidate sets contain stops from two disconnected
components. -/
def cEnv1 : Env where
  graph := cGraph1
  treeStops := [(0, 0), (0, 1), (5, 0), (5, 1)]
  dist := cDist1
  coordStop := fun c =>
    if c = (0, 0) then "A" else if c = (0, 1) then "B"
    else if c = (5, 0) then "C" else "D"
  stopCoords := fun s =>
    if s = "A" then (0, 0) else if s = "B" then (0, 1)
    else if s = "C" then (5, 0) else (5, 1)

/-- Environment whose single indexed stop is 2000 m from every query point:
no stop survives the walking-distance filter. -/
def cEnv2 : Env where
  graph := ⟨[⟨"E", "F", "L9"⟩]⟩
  treeStops := [(1000, 1000)]
  dist := fun _ _ => 2000
  coordStop := fun _ => "E"
  stopCoords := fun _ => (1000, 1000)

/-- A three-stop chain A—B—C. -/
def cGraph3 : MultiGraph := ⟨[⟨"A", "B", "L1"⟩, ⟨"B", "C", "L1"⟩]⟩

/-- A four-stop chain A—B—C—D. -/
def cGraph4 : MultiGraph := ⟨[⟨"A", "B", "L1"⟩, ⟨"B", "C", "L1"⟩, ⟨"C", "D", "L1"⟩]⟩

/-- Stop-coordinate lookup for the chain graphs. -/
def cSC : StopId → Coord := fun s =>
  if s = "A" then (0, 0) else if s = "B" then (0, 1)
  else if s = "C" then (0, 2) else (0, 3)

/-- Distance table for `cEnv4`: a point is at distance 0 from itself and
1000 m from everything else, so each query point reaches exactly one stop. -/
def cDist4 : Coord → Coord → ℚ := fun p q => if p = q then 0 else 1000

/-- Environment with one edge A—B whose endpoints are walkable only from the
origin query point and the destination query point respectively. -/
def cEnv4 : Env where
  graph := ⟨[⟨"A", "B", "L1"⟩]⟩
  treeStops := [(0, 0), (0, 1000)]
  dist := cDist4
  coordStop := fun c => if c = (0, 0) then "A" else "B"
  stopCoords := fun s => if s = "A" then (0, 0) else (0, 1000)

/-- The single segment dict produced by `find_routes` on `cEnv4`. -/
def cSeg4 : PyDict := segDict cEnv4.stopCoords ["L1"] "A" "B"

/-- Distance table for the walking-boundary witness: (0,500) sits at exactly
500 m from the query point, (0,501) at 501 m. -/
def cDist8 : Coord → Coord → ℚ := fun _ q => if q = (0, 500) then 500 else 501

/-! ### Lemmas about the embedded combinators -/

theorem exceptMapM_error_of_mem {α β : Type} {f : α → Except PlanError β}
    {l : List α} {x : α} {e : PlanError} (hx : x ∈ l) (hfx : f x = .error e) :
    ∃ e', exceptMapM f l = .error e' := by
  induction l with
  | nil => cases hx
  | cons y ys ih =>
    cases hx with
    | head => exact ⟨e, by simp [exceptMapM, hfx]⟩
    | tail _ hmem =>
      cases hfy : f y with
      | error e'' => exact ⟨e'', by simp [exceptMapM, hfy]⟩
      | ok b =>
        obtain ⟨e', he'⟩ := ih hmem
        exact ⟨e', by simp [exceptMapM, hfy, he']⟩

theorem exceptMapM_ok_mem {α β : Type} {f : α → Except PlanError β}
    {l : List α} {ys : List β} {y : β}
    (h : exceptMapM f l = .ok ys) (hy : y ∈ ys) :
    ∃ x, x ∈ l ∧ f x = .ok y := by
  induction l generalizing ys with
  | nil =>
    simp [exceptMapM] at h
    subst h
    cases hy
  | cons z zs ih =>
    rw [exceptMapM] at h
    cases hfz : f z with
    | error e => rw [hfz] at h; cases h
    | ok b =>
      rw [hfz] at h
      cases hm : exceptMapM f zs with
      | error e => rw [hm] at h; cases h
      | ok bs =>
        rw [hm] at h
        cases h
        cases hy with
        | head => exact ⟨z, List.mem_cons_self _ _, hfz⟩
        | tail _ hmem =>
          obtain ⟨x, hx, hfx⟩ := ih hm hmem
          exact ⟨x, List.mem_cons_of_mem _ hx, hfx⟩

theorem pyMin_foldl_spec (xs : List (List StopId)) :
    ∀ x : List StopId,
      (xs.foldl (fun acc y => if y.length < acc.length then y else acc) x) ∈ x :: xs ∧
      ∀ q ∈ x :: xs,
        (xs.foldl (fun acc y => if y.length < acc.length then y else acc) x).length ≤ q.length := by
  induction xs with
  | nil =>
    intro x
    refine ⟨List.mem_singleton.mpr rfl, ?_⟩
    intro q hq
    rw [List.mem_singleton] at hq
    subst hq
    exact le_refl _
  | cons y ys ih =>
    intro x
    rw [List.foldl_cons]
    obtain ⟨hmem, hmin⟩ := ih (if y.length < x.length then y else x)
    have hz : (if y.length < x.length then y else x) = y ∨
        (if y.length < x.length then y else x) = x := by
      split
      · exact Or.inl rfl
      · exact Or.inr rfl
    have hzle : (if y.length < x.length then y else x).length ≤ x.length ∧
        (if y.length < x.length then y else x).length ≤ y.length := by
      constructor <;> split <;> omega
    constructor
    · rcases List.mem_cons.mp hmem with h | h
      · rw [h]
        rcases hz with hz | hz <;> rw [hz]
        · exact List.mem_cons_of_mem _ (List.mem_cons_self _ _)
        · exact List.mem_cons_self _ _
      · exact List.mem_cons_of_mem _ (List.mem_cons_of_mem _ h)
    · intro q hq
      rcases List.mem_cons.mp hq with rfl | hq'
      · exact le_trans (hmin _ (List.mem_cons_self _ _)) hzle.1
      · rcases List.mem_cons.mp hq' with rfl | hq''
        · exact le_trans (hmin _ (List.mem_cons_self _ _)) hzle.2
        · exact hmin _ (List.mem_cons_of_mem _ hq'')

theorem pyMinByLen_spec {l : List (List StopId)} {m : List StopId}
    (h : pyMinByLen l = some m) : m ∈ l ∧ ∀ q ∈ l, m.length ≤ q.length := by
  cases l with
  | nil => cases h
  | cons x xs =>
    rw [pyMinByLen] at h
    cases h
    exact pyMin_foldl_spec xs x

theorem insertByKey_perm (key : Nat → ℚ) (i : Nat) :
    ∀ l : List Nat, (insertByKey key i l).Perm (i :: l) := by
  intro l
  induction l with
  | nil => rfl
  | cons j rest ih =>
    rw [insertByKey]
    split
    · rfl
    · exact (List.Perm.cons j ih).trans (List.Perm.swap i j rest)

theorem sortByKey_perm (key : Nat → ℚ) :
    ∀ l : List Nat, (sortByKey key l).Perm l := by
  intro l
  induction l with
  | nil => rfl
  | cons i rest ih =>
    exact (insertByKey_perm key i (sortByKey key rest)).trans (List.Perm.cons i ih)

theorem pyListGet_all {tree : List Coord} :
    ∀ idxs : List Nat, (∀ i ∈ idxs, i < tree.length) →
      pyListGet tree idxs = some (idxs.map (fun i => tree.getD i (0, 0))) := by
  intro idxs h
  induction idxs with
  | nil => rfl
  | cons i rest ih =>
    have hi : i < tree.length := h i (List.mem_cons_self _ _)
    have hget : tree[i]? = some (tree.getD i (0, 0)) := by
      rw [List.getElem?_eq_getElem hi, List.getD_eq_getElem?_getD,
        List.getElem?_eq_getElem hi, Option.getD_some]
    rw [pyListGet, hget, ih (fun j hj => h j (List.mem_cons_of_mem _ hj)), List.map_cons]

theorem map_getD_range {α : Type} (l : List α) (d : α) :
    (List.range l.length).map (fun i => l.getD i d) = l := by
  induction l with
  | nil => rfl
  | cons x xs ih =>
    rw [List.length_cons, List.range_succ_eq_map, List.map_cons, List.map_map]
    have hcomp : ((fun i => (x :: xs).getD i d) ∘ Nat.succ) = fun i => xs.getD i d := by
      funext i
      simp [Function.comp, List.getD_cons_succ]
    simp only [List.getD_cons_zero, hcomp, ih]

theorem count_filter_of_pos {α : Type} [BEq α] [LawfulBEq α] (f : α → Bool) (a : α)
    (hfa : f a = true) : ∀ l : List α, (l.filter f).count a = l.count a := by
  intro l
  induction l with
  | nil => rfl
  | cons b bs ih =>
    by_cases hb : f b
    · rw [List.filter_cons_of_pos hb]
      by_cases hba : b = a
      · subst hba; rw [List.count_cons_self, List.count_cons_self, ih]
      · rw [List.count_cons_of_ne (by exact fun h => hba h.symm),
          List.count_cons_of_ne (by exact fun h => hba h.symm), ih]
    · rw [List.filter_cons_of_neg (by simpa using hb)]
      have hba : b ≠ a := fun h => hb (h ▸ hfa)
      rw [List.count_cons_of_ne (by exact fun h => hba h.symm), ih]

/-! ### Soundness of the breadth-first search -/

theorem adj_iff_edge {g : MultiGraph} {u v : StopId} :
    Adj g u v ↔ ∃ e ∈ g.edges, (e.a = u ∧ e.b = v) ∨ (e.a = v ∧ e.b = u) := by
  unfold Adj lines_connecting_stops
  constructor
  · intro h
    cases hf : g.edges.filter (fun e =>
        (e.a == u && e.b == v) || (e.a == v && e.b == u)) with
    | nil => rw [hf] at h; simp at h
    | cons e es =>
      have he : e ∈ g.edges.filter (fun e =>
          (e.a == u && e.b == v) || (e.a == v && e.b == u)) := by
        rw [hf]; exact List.mem_cons_self _ _
      rw [List.mem_filter] at he
      refine ⟨e, he.1, ?_⟩
      have h2 := he.2
      simp only [Bool.or_eq_true, Bool.and_eq_true, beq_iff_eq] at h2
      exact h2
  · rintro ⟨e, he, hcase⟩
    intro hnil
    rw [List.map_eq_nil_iff] at hnil
    have hmem : e ∈ g.edges.filter (fun e =>
        (e.a == u && e.b == v) || (e.a == v && e.b == u)) :=
      List.mem_filter.mpr ⟨he, by
        simp only [Bool.or_eq_true, Bool.and_eq_true, beq_iff_eq]
        exact hcase⟩
    rw [hnil] at hmem
    cases hmem

theorem adj_of_mem_neighbors {g : MultiGraph} {u v : StopId}
    (h : v ∈ neighbors g u) : Adj g u v := by
  rw [neighbors, List.mem_filterMap] at h
  obtain ⟨e, he, hev⟩ := h
  rw [adj_iff_edge]
  refine ⟨e, he, ?_⟩
  by_cases h1 : e.a = u
  · rw [if_pos h1] at hev
    cases hev
    exact Or.inl ⟨h1, rfl⟩
  · rw [if_neg h1] at hev
    by_cases h2 : e.b = u
    · rw [if_pos h2] at hev
      cases hev
      exact Or.inr ⟨rfl, h2⟩
    · rw [if_neg h2] at hev
      cases hev

theorem reach_of_revchain {g : MultiGraph} {s : StopId} :
    ∀ p : List StopId, p.getLast? = some s →
      List.Chain' (fun a b => Adj g b a) p →
      ∀ u, p.head? = some u → Relation.ReflTransGen (Adj g) s u := by
  intro p
  induction p with
  | nil => intro h; cases h
  | cons x rest ih =>
    intro hlast hchain u hu
    rw [List.head?_cons] at hu
    cases hu
    cases rest with
    | nil =>
      have hx : x = s := by
        rw [List.getLast?_singleton] at hlast
        exact (Option.some.inj hlast)
      subst hx
      exact Relation.ReflTransGen.refl
    | cons y rest' =>
      rw [List.chain'_cons] at hchain
      have hlast' : (y :: rest').getLast? = some s := by
        rwa [List.getLast?_cons_cons] at hlast
      exact (ih hlast' hchain.2 y rfl).tail hchain.1

theorem bfsAux_step_nil (g : MultiGraph) (target : StopId) (fuel : Nat)
    (queue : List (List StopId)) (visited : List StopId) :
    bfsAux g target (fuel + 1) ([] :: queue) visited = none := rfl

theorem bfsAux_step_cons (g : MultiGraph) (target : StopId) (fuel : Nat)
    (u : StopId) (ptail : List StopId) (queue : List (List StopId))
    (visited : List StopId) :
    bfsAux g target (fuel + 1) ((u :: ptail) :: queue) visited =
      if u = target then some (u :: ptail).reverse
      else
        bfsAux g target fuel
          (queue ++ ((neighbors g u).filter (fun v => !(visited.contains v))).map
            (fun v => v :: (u :: ptail)))
          (visited ++ (neighbors g u).filter (fun v => !(visited.contains v))) := rfl

theorem bfsAux_sound {g : MultiGraph} {s t : StopId} :
    ∀ (fuel : Nat) (queue : List (List StopId)) (visited : List StopId)
      (r : List StopId),
      (∀ p ∈ queue, p.getLast? = some s ∧ List.Chain' (fun a b => Adj g b a) p) →
      bfsAux g t fuel queue visited = some r →
      Relation.ReflTransGen (Adj g) s t := by
  intro fuel
  induction fuel with
  | zero => intro queue visited r _ h; cases h
  | succ fuel ih =>
    intro queue visited r hinv h
    cases queue with
    | nil => cases h
    | cons p rest =>
      cases p with
      | nil => rw [bfsAux_step_nil] at h; cases h
      | cons u ptail =>
        rw [bfsAux_step_cons] at h
        by_cases hu : u = t
        · have hp := hinv _ (List.mem_cons_self _ _)
          subst hu
          exact reach_of_revchain _ hp.1 hp.2 u rfl
        · rw [if_neg hu] at h
          refine ih _ _ r ?_ h
          intro q hq
          rcases List.mem_append.mp hq with hq | hq
          · exact hinv _ (List.mem_cons_of_mem _ hq)
          · rw [List.mem_map] at hq
            obtain ⟨v, hv, rfl⟩ := hq
            have hp := hinv _ (List.mem_cons_self _ _)
            refine ⟨?_, ?_⟩
            · rw [List.getLast?_cons_cons]
              exact hp.1
            · rw [List.chain'_cons]
              exact ⟨adj_of_mem_neighbors (List.mem_filter.mp hv).1, hp.2⟩

theorem bfs_sound {g : MultiGraph} {s t : StopId} {p : List StopId}
    (h : bfs g s t = some p) : Relation.ReflTransGen (Adj g) s t := by
  refine bfsAux_sound _ _ _ p ?_ h
  intro q hq
  rw [List.mem_singleton] at hq
  subst hq
  exact ⟨rfl, List.chain'_singleton _⟩

theorem nx_shortest_path_error_of_not_reachable {g : MultiGraph} {s t : StopId}
    (h : ¬ Relation.ReflTransGen (Adj g) s t) :
    ∃ e, nx_shortest_path g s t = .error e := by
  by_cases hc : s ∈ graphNodes g ∧ t ∈ graphNodes g
  · rw [nx_shortest_path, if_pos hc]
    cases hb : bfs g s t with
    | some p => exact absurd (bfs_sound hb) h
    | none => exact ⟨.networkXNoPath, rfl⟩
  · rw [nx_shortest_path, if_neg hc]
    exact ⟨.nodeNotFound, rfl⟩

theorem journey_transits_error_of_not_reachable {g : MultiGraph} {s t : StopId}
    {mc : Option Int} (h : ¬ Relation.ReflTransGen (Adj g) s t) :
    ∃ e, journey_transits g s t mc = .error e := by
  obtain ⟨e, he⟩ := nx_shortest_path_error_of_not_reachable h
  exact ⟨e, by rw [journey_transits, he]⟩

/-! ### The closed form of `parse_route` -/

theorem segList_length {g : MultiGraph} {sc : StopId → Coord} :
    ∀ (rest : List StopId) (prev : StopId),
      (segList g sc prev rest).length = rest.length := by
  intro rest
  induction rest with
  | nil => intro prev; rfl
  | cons nxt rest' ih => intro prev; rw [segList, List.length_cons, ih, List.length_cons]

theorem parse_route_go_eq_segList {g : MultiGraph} {sc : StopId → Coord} :
    ∀ (rest : List StopId) (prev : StopId), List.Chain' (Adj g) (prev :: rest) →
      parse_route_go g sc prev rest = .ok (segList g sc prev rest) := by
  intro rest
  induction rest with
  | nil => intro prev _; rfl
  | cons nxt rest' ih =>
    intro prev hchain
    rw [List.chain'_cons] at hchain
    rw [parse_route_go, if_neg hchain.1, ih nxt hchain.2]
    rfl

theorem parse_route_eq_segList {g : MultiGraph} {sc : StopId → Coord}
    {prev : StopId} {rest : List StopId}
    (h : List.Chain' (Adj g) (prev :: rest)) :
    parse_route g sc (prev :: rest) = .ok (segList g sc prev rest) :=
  parse_route_go_eq_segList rest prev h

theorem segList_getD {g : MultiGraph} {sc : StopId → Coord} :
    ∀ (rest : List StopId) (prev : StopId) (i : Nat), i < rest.length →
      (segList g sc prev rest).getD i [] =
        segDict sc
          (lines_connecting_stops g ((prev :: rest).getD i "") ((prev :: rest).getD (i+1) ""))
          ((prev :: rest).getD i "") ((prev :: rest).getD (i+1) "") := by
  intro rest
  induction rest with
  | nil => intro prev i hi; cases hi
  | cons nxt rest' ih =>
    intro prev i hi
    cases i with
    | zero => rfl
    | succ i' =>
      rw [segList, List.getD_cons_succ,
        ih nxt i' (by simp only [List.length_cons] at hi; omega)]
      simp [List.getD_cons_succ]

theorem segList_mem {g : MultiGraph} {sc : StopId → Coord} :
    ∀ (rest : List StopId) (prev : StopId) (seg : PyDict),
      seg ∈ segList g sc prev rest →
      ∃ u v, seg = segDict sc (lines_connecting_stops g u v) u v := by
  intro rest
  induction rest with
  | nil => intro prev seg h; cases h
  | cons nxt rest' ih =>
    intro prev seg h
    rcases List.mem_cons.mp h with h | h
    · exact ⟨prev, nxt, h⟩
    · exact ih nxt seg h

theorem segDict_keys (sc : StopId → Coord) (lines : List Line) (u v : StopId) :
    (segDict sc lines u v).map Prod.fst = ["busses", "board", "deboard"] := rfl

theorem segDict_busses (sc : StopId → Coord) (lines : List Line) (u v : StopId) :
    dictGetV (segDict sc lines u v) "busses" = some (.strs lines) := rfl

theorem segDict_lines_none (sc : StopId → Coord) (lines : List Line) (u v : StopId) :
    dictGetV (segDict sc lines u v) "lines" = none := rfl

theorem segDict_board_id (sc : StopId → Coord) (lines : List Line) (u v : StopId) :
    segStopId (segDict sc lines u v) "board" = some u := rfl

theorem segDict_deboard_id (sc : StopId → Coord) (lines : List Line) (u v : StopId) :
    segStopId (segDict sc lines u v) "deboard" = some v := rfl

theorem segDict_board_lat (sc : StopId → Coord) (lines : List Line) (u v : StopId) :
    segStopLat (segDict sc lines u v) "board" = some (sc u).1 := rfl

theorem segDict_board_lng (sc : StopId → Coord) (lines : List Line) (u v : StopId) :
    segStopLng (segDict sc lines u v) "board" = some (sc u).2 := rfl

theorem segDict_deboard_lat (sc : StopId → Coord) (lines : List Line) (u v : StopId) :
    segStopLat (segDict sc lines u v) "deboard" = some (sc v).1 := rfl

theorem segDict_deboard_lng (sc : StopId → Coord) (lines : List Line) (u v : StopId) :
    segStopLng (segDict sc lines u v) "deboard" = some (sc v).2 := rfl

theorem chain'_cons_cons {R : StopId → StopId → Prop} {x y : StopId}
    {l : List StopId} (h1 : R x y) (h2 : List.Chain' R (y :: l)) :
    List.Chain' R (x :: y :: l) :=
  List.chain'_cons.mpr ⟨h1, h2⟩

theorem chain'_getD {R : StopId → StopId → Prop} :
    ∀ l : List StopId, List.Chain' R l → ∀ i, i + 1 < l.length →
      R (l.getD i "") (l.getD (i+1) "") := by
  intro l
  induction l with
  | nil => intro _ i hi; simp at hi
  | cons x rest ih =>
    intro hch i hi
    cases rest with
    | nil => simp only [List.length_cons, List.length_nil] at hi; omega
    | cons y rest' =>
      rw [List.chain'_cons] at hch
      cases i with
      | zero =>
        simp only [List.getD_cons_zero, List.getD_cons_succ]
        exact hch.1
      | succ i' =>
        rw [List.getD_cons_succ, List.getD_cons_succ]
        exact ih hch.2 i' (by simp only [List.length_cons] at hi ⊢; omega)

theorem getLastD_irrel {α : Type} (d1 d2 : α) :
    ∀ l : List α, l ≠ [] → l.getLastD d1 = l.getLastD d2 := by
  intro l
  cases l with
  | nil => intro h; exact absurd rfl h
  | cons x rest =>
    intro _
    rw [List.getLastD_cons, List.getLastD_cons]

theorem getD_eq_getLastD {α : Type} (d : α) :
    ∀ l : List α, l ≠ [] → l.getD (l.length - 1) d = l.getLastD d := by
  intro l
  induction l with
  | nil => intro h; exact absurd rfl h
  | cons x rest ih =>
    intro _
    cases rest with
    | nil => rfl
    | cons y rest' =>
      have h1 : (x :: y :: rest').length - 1 = ((y :: rest').length - 1) + 1 := by
        simp only [List.length_cons]
        omega
      rw [h1, List.getD_cons_succ, ih (List.cons_ne_nil y rest'),
        List.getLastD_cons d x (y :: rest')]
      exact getLastD_irrel d x (y :: rest') (List.cons_ne_nil y rest')

theorem find_routes_unfold (env : Env) (origin destination : Coord)
    (max_walk : ℚ) (os0 ds0 : List Coord)
    (h1 : k_nearest_stop_coords env.treeStops env.dist origin.1 origin.2 10 = some os0)
    (h2 : k_nearest_stop_coords env.treeStops env.dist destination.1 destination.2 10 = some ds0) :
    find_routes env origin destination max_walk =
      match transit_options_of env (filter_within_walk env.dist origin os0 max_walk)
          (filter_within_walk env.dist destination ds0 max_walk) with
      | .error e => .error e
      | .ok transit_options =>
        match fewest_changes_filter transit_options with
        | .error e => .error e
        | .ok kept => exceptMapM (fun t => parse_route env.graph env.stopCoords t) kept := by
  rw [find_routes, h1, h2]

/-! ### Claim C3 -/

/-- C3 counterexample: the claim asserts the budget check fires for every
`max_changes` value "including 0", but with `max_changes = 0` the code's
`if max_changes and ...` guard is falsy, so the full three-stop path is
returned even though `len(path) - 2 = 1 > 0`. -/
theorem journey_transits_zero_budget_cx :
    journey_transits cGraph3 "A" "C" (some 0) = .ok ["A", "B", "C"] ∧
      ((["A", "B", "C"].length : Int) - 2 > 0) := by
  constructor
  · decide
  · decide

/-- C3 (amended): for a connected stop pair and a *truthy* (nonzero)
`max_changes = m ≥ 1`, path search returns the empty path when the found path
has `len(path) - 2 > m` and the full stop sequence otherwise.  (With
`max_changes = 0` or `None` the budget check is skipped by Python
truthiness.) -/
theorem journey_transits_budget (g : MultiGraph) (o d : StopId) (m : Int)
    (p : List StopId) (hm : 1 ≤ m) (hp : nx_shortest_path g o d = .ok p) :
    journey_transits g o d (some m) =
      if (p.length : Int) - 2 > m then .ok [] else .ok p := by
  rw [journey_transits, hp]
  have ht : pyTruthy (some m) = true := by
    simp only [pyTruthy, bne_iff_ne, ne_eq]
    omega
  simp only [ht, Bool.true_and, Option.getD_some, decide_eq_true_eq]

/-- Witness for C3's amended theorem at a concrete over-budget input. -/
theorem journey_transits_budget_witness :
    journey_transits cGraph4 "A" "D" (some 1) =
      if ((["A", "B", "C", "D"].length : Int) - 2 > 1) then .ok []
      else .ok ["A", "B", "C", "D"] :=
  journey_transits_budget cGraph4 "A" "D" 1 ["A", "B", "C", "D"] (by decide) (by decide)

/-! ### Claim C4 -/

/-- C4: on a nonempty list of per-pair path results, the aggregator's
filtering step keeps exactly the paths whose length equals the global minimum:
a path is kept iff it is one of the results and no result is shorter, and
minimal paths are kept with their multiplicity (ties are not deduplicated). -/
theorem fewest_changes_filter_spec (opts : List (List StopId)) (hne : opts ≠ []) :
    ∃ kept, fewest_changes_filter opts = .ok kept ∧
      (∀ p, p ∈ kept ↔ p ∈ opts ∧ ∀ q ∈ opts, p.length ≤ q.length) ∧
      (∀ p, (∀ q ∈ opts, p.length ≤ q.length) → kept.count p = opts.count p) := by
  cases opts with
  | nil => exact absurd rfl hne
  | cons x xs =>
    have hps := pyMin_foldl_spec xs x
    refine ⟨(x :: xs).filter (fun t =>
      t.length == (xs.foldl (fun acc y => if y.length < acc.length then y else acc) x).length),
      rfl, ?_, ?_⟩
    · intro p
      rw [List.mem_filter]
      constructor
      · rintro ⟨hp, hlen⟩
        rw [beq_iff_eq] at hlen
        exact ⟨hp, fun q hq => hlen ▸ hps.2 q hq⟩
      · rintro ⟨hp, hmin'⟩
        refine ⟨hp, ?_⟩
        rw [beq_iff_eq]
        exact le_antisymm (hmin' _ hps.1) (hps.2 p hp)
    · intro p hminp
      by_cases hp : p ∈ x :: xs
      · have hfp : (p.length ==
            (xs.foldl (fun acc y => if y.length < acc.length then y else acc) x).length) = true := by
          rw [beq_iff_eq]
          exact le_antisymm (hminp _ hps.1) (hps.2 p hp)
        exact count_filter_of_pos (fun t =>
          t.length == (xs.foldl (fun acc y => if y.length < acc.length then y else acc) x).length)
          p hfp _
      · have hnp : p ∉ (x :: xs).filter (fun t =>
            t.length == (xs.foldl (fun acc y => if y.length < acc.length then y else acc) x).length) :=
          fun hmem' => hp (List.mem_of_mem_filter hmem')
        rw [List.count_eq_zero_of_not_mem hp, List.count_eq_zero_of_not_mem hnp]

/-- Witness for C4 on a concrete three-result list with a length tie. -/
theorem fewest_changes_filter_spec_witness :
    ∃ kept, fewest_changes_filter [["A", "B", "X"], ["A", "B"], ["C", "D"]] = .ok kept ∧
      (∀ p, p ∈ kept ↔ p ∈ [["A", "B", "X"], ["A", "B"], ["C", "D"]] ∧
        ∀ q ∈ [["A", "B", "X"], ["A", "B"], ["C", "D"]], p.length ≤ q.length) ∧
      (∀ p, (∀ q ∈ [["A", "B", "X"], ["A", "B"], ["C", "D"]], p.length ≤ q.length) →
        kept.count p = [["A", "B", "X"], ["A", "B"], ["C", "D"]].count p) :=
  fewest_changes_filter_spec [["A", "B", "X"], ["A", "B"], ["C", "D"]] (by decide)

/-! ### Claim C6 -/

/-- C6: when the requested `k` is at least the number of indexed stops, the
nearest-stop lookup succeeds and returns every indexed stop (a permutation of
the index contents) rather than failing. -/
theorem k_nearest_all_when_k_exceeds (tree : List Coord)
    (dist : Coord → Coord → ℚ) (lat lon : ℚ) (k : Nat) (hk : tree.length ≤ k) :
    ∃ l, k_nearest_stop_coords tree dist lat lon k = some l ∧ l.Perm tree := by
  have hperm := sortByKey_perm (fun i => dist (lat, lon) (tree.getD i (0, 0)))
    (List.range tree.length)
  have hlen : (sortByKey (fun i => dist (lat, lon) (tree.getD i (0, 0)))
      (List.range tree.length)).length ≤ k := by
    rw [hperm.length_eq, List.length_range]
    exact hk
  have htq : tree_query tree dist (lat, lon) k =
      sortByKey (fun i => dist (lat, lon) (tree.getD i (0, 0))) (List.range tree.length) := by
    rw [tree_query, List.take_of_length_le hlen]
  have hmem : ∀ i ∈ sortByKey (fun i => dist (lat, lon) (tree.getD i (0, 0)))
      (List.range tree.length), i < tree.length :=
    fun i hi => List.mem_range.mp (hperm.mem_iff.mp hi)
  refine ⟨(sortByKey (fun i => dist (lat, lon) (tree.getD i (0, 0)))
    (List.range tree.length)).map (fun i => tree.getD i (0, 0)), ?_, ?_⟩
  · rw [k_nearest_stop_coords, htq, pyListGet_all _ hmem]
  · have hmap := hperm.map (fun i => tree.getD i (0, 0))
    rw [map_getD_range tree (0, 0)] at hmap
    exact hmap

/-- Witness for C6: a two-stop index queried with k = 10. -/
theorem k_nearest_all_witness :
    ∃ l, k_nearest_stop_coords ([(0, 0), (0, 1)] : List Coord) cDist4 0 0 10 = some l ∧
      l.Perm ([(0, 0), (0, 1)] : List Coord) :=
  k_nearest_all_when_k_exceeds [(0, 0), (0, 1)] cDist4 0 0 10 (by decide)

/-! ### Claim C8 -/

/-- C8: the walking-distance filter (applied by `find_routes` to both the
origin and the destination candidate lists) keeps a candidate stop at exactly
`max_walk` metres and drops any candidate strictly beyond `max_walk`. -/
theorem filter_within_walk_boundary (dist : Coord → Coord → ℚ) (point : Coord)
    (stops : List Coord) (max_walk : ℚ) (s : Coord) (hs : s ∈ stops) :
    (dist point s = max_walk → s ∈ filter_within_walk dist point stops max_walk) ∧
    (max_walk < dist point s → s ∉ filter_within_walk dist point stops max_walk) := by
  constructor
  · intro heq
    rw [filter_within_walk, List.mem_filter]
    exact ⟨hs, by rw [heq]; simp⟩
  · intro hgt hmem
    rw [filter_within_walk, List.mem_filter] at hmem
    have h2 := hmem.2
    simp only [decide_eq_true_eq] at h2
    exact absurd h2 (not_le.mpr hgt)

/-- Witness for C8: a stop at exactly 500 m is kept, one at 501 m is not. -/
theorem filter_within_walk_boundary_witness :
    ((0, 500) ∈ filter_within_walk cDist8 (0, 0)
      ([(0, 500), (0, 501)] : List Coord) 500) ∧
    ((0, 501) ∉ filter_within_walk cDist8 (0, 0)
      ([(0, 500), (0, 501)] : List Coord) 500) :=
  ⟨(filter_within_walk_boundary cDist8 (0, 0) [(0, 500), (0, 501)] 500 (0, 500)
      (by decide)).1 (by decide),
   (filter_within_walk_boundary cDist8 (0, 0) [(0, 500), (0, 501)] 500 (0, 501)
      (by decide)).2 (by decide)⟩

/-! ### Claim C9 -/

/-- C9: the planner is deterministic — two calls with identical origin,
destination and walking budget against the same graph and index state return
the same journey list, in the same order (the embedding is a pure sequential
function, as is the source: no randomness and no concurrency). -/
theorem find_routes_deterministic (env : Env) (o1 d1 : Coord) (w1 : ℚ)
    (o2 d2 : Coord) (w2 : ℚ) (ho : o1 = o2) (hd : d1 = d2) (hw : w1 = w2) :
    find_routes env o1 d1 w1 = find_routes env o2 d2 w2 := by
  subst ho
  subst hd
  subst hw
  rfl

/-- Witness for C9 at a concrete repeated query. -/
theorem find_routes_deterministic_witness :
    find_routes cEnv4 (0, 0) (0, 1000) 500 = find_routes cEnv4 (0, 0) (0, 1000) 500 :=
  find_routes_deterministic cEnv4 (0, 0) (0, 1000) 500 (0, 0) (0, 1000) 500 rfl rfl rfl

/-! ### Claim C2 -/

/-- C2 counterexample: with no indexed stop within walking distance of the
origin, the claim promises an empty-journey result, but `find_routes` raises
`ValueError` (from `min` over the empty cross product) — a crash, not an
empty list. -/
theorem find_routes_no_walkable_cx :
    k_nearest_stop_coords cEnv2.treeStops cEnv2.dist 0 0 10 = some [(1000, 1000)] ∧
      filter_within_walk cEnv2.dist (0, 0) [(1000, 1000)] 500 = [] ∧
      find_routes cEnv2 (0, 0) (0, 1) 500 = .error .valueErrorMinEmpty := by
  refine ⟨by decide, by decide, by decide⟩

/-- C2 (amended): when either filtered candidate set is empty, the cross
product is empty and `min(transit_options, key=len)` raises `ValueError`, so
`find_routes` fails with that error instead of returning an empty journey
list. -/
theorem find_routes_empty_candidates_error (env : Env)
    (origin destination : Coord) (max_walk : ℚ) (os0 ds0 : List Coord)
    (h1 : k_nearest_stop_coords env.treeStops env.dist origin.1 origin.2 10 = some os0)
    (h2 : k_nearest_stop_coords env.treeStops env.dist destination.1 destination.2 10 = some ds0)
    (h : filter_within_walk env.dist origin os0 max_walk = [] ∨
         filter_within_walk env.dist destination ds0 max_walk = []) :
    find_routes env origin destination max_walk = .error .valueErrorMinEmpty := by
  rw [find_routes_unfold env origin destination max_walk os0 ds0 h1 h2]
  have hcp : crossPairs (filter_within_walk env.dist origin os0 max_walk)
      (filter_within_walk env.dist destination ds0 max_walk) = [] := by
    rcases h with h | h <;> rw [crossPairs, h] <;> simp
  have hto : transit_options_of env (filter_within_walk env.dist origin os0 max_walk)
      (filter_within_walk env.dist destination ds0 max_walk) = .ok [] := by
    rw [transit_options_of, hcp]
    rfl
  rw [hto]
  rfl

/-- Witness for C2's amended theorem on the concrete far-away index. -/
theorem find_routes_empty_candidates_error_witness :
    find_routes cEnv2 (0, 0) (0, 1) 500 = .error .valueErrorMinEmpty :=
  find_routes_empty_candidates_error cEnv2 (0, 0) (0, 1) 500
    [(1000, 1000)] [(1000, 1000)] (by decide) (by decide) (Or.inl (by decide))

/-! ### Claim C1 -/

theorem adj_cGraph1_cases {u v : StopId} (h : Adj cGraph1 u v) :
    (u = "A" ∧ v = "B") ∨ (u = "B" ∧ v = "A") ∨
    (u = "C" ∧ v = "D") ∨ (u = "D" ∧ v = "C") := by
  rw [adj_iff_edge] at h
  obtain ⟨e, he, hcase⟩ := h
  rcases List.mem_cons.mp he with rfl | he'
  · rcases hcase with ⟨h1, h2⟩ | ⟨h1, h2⟩
    · exact Or.inl ⟨h1.symm, h2.symm⟩
    · exact Or.inr (Or.inl ⟨h2.symm, h1.symm⟩)
  · rcases List.mem_singleton.mp he' with rfl
    rcases hcase with ⟨h1, h2⟩ | ⟨h1, h2⟩
    · exact Or.inr (Or.inr (Or.inl ⟨h1.symm, h2.symm⟩))
    · exact Or.inr (Or.inr (Or.inr ⟨h2.symm, h1.symm⟩))

theorem not_reach_cGraph1_AD :
    ¬ Relation.ReflTransGen (Adj cGraph1) "A" "D" := by
  intro h
  have hinv : ∀ x, Relation.ReflTransGen (Adj cGraph1) "A" x → (x = "A" ∨ x = "B") := by
    intro x hx
    induction hx with
    | refl => exact Or.inl rfl
    | tail hab hbc ih =>
      rcases adj_cGraph1_cases hbc with ⟨h1, h2⟩ | ⟨h1, h2⟩ | ⟨h1, h2⟩ | ⟨h1, h2⟩
      · exact Or.inr h2
      · exact Or.inl h2
      · rw [h1] at ih
        rcases ih with ih | ih <;> exact absurd ih (by decide)
      · rw [h1] at ih
        rcases ih with ih | ih <;> exact absurd ih (by decide)
  rcases hinv "D" h with hd | hd <;> exact absurd hd (by decide)

/-- C1 counterexample: candidate pair (A, D) spans the two components of
`cGraph1`, and although the candidate pair (A, B) is connected, `find_routes`
propagates `NetworkXNoPath` instead of excluding the failing pair and
returning the fewest-change journeys of the connected ones. -/
theorem find_routes_disconnected_cx :
    Relation.ReflTransGen (Adj cGraph1) "A" "B" ∧
      find_routes cEnv1 (0, 0) (0, 1) 500 = .error .networkXNoPath := by
  constructor
  · exact Relation.ReflTransGen.single (by decide)
  · decide

/-- C1 (amended): a candidate pair whose stops lie in disconnected components
is *not* recovered locally — path search raises `NoPathExists`
(`NetworkXNoPath`), the per-pair loop has no handler, and the whole
`find_routes` call fails with an error even when other candidate pairs are
connected; no journey list (empty or otherwise) is returned. -/
theorem find_routes_disconnected_pair_error (env : Env)
    (origin destination : Coord) (max_walk : ℚ) (os0 ds0 : List Coord)
    (o d : Coord)
    (h1 : k_nearest_stop_coords env.treeStops env.dist origin.1 origin.2 10 = some os0)
    (h2 : k_nearest_stop_coords env.treeStops env.dist destination.1 destination.2 10 = some ds0)
    (hmem : (o, d) ∈ crossPairs (filter_within_walk env.dist origin os0 max_walk)
        (filter_within_walk env.dist destination ds0 max_walk))
    (hnr : ¬ Relation.ReflTransGen (Adj env.graph) (env.coordStop o) (env.coordStop d)) :
    ∃ e, find_routes env origin destination max_walk = .error e := by
  obtain ⟨e, he⟩ := @journey_transits_error_of_not_reachable env.graph
    (env.coordStop o) (env.coordStop d) none hnr
  obtain ⟨e', he'⟩ := exceptMapM_error_of_mem
    (f := fun od => journey_transits env.graph (env.coordStop od.1) (env.coordStop od.2) none)
    hmem he
  refine ⟨e', ?_⟩
  rw [find_routes_unfold env origin destination max_walk os0 ds0 h1 h2,
    show transit_options_of env (filter_within_walk env.dist origin os0 max_walk)
      (filter_within_walk env.dist destination ds0 max_walk) = .error e' from he']

/-- Witness for C1's amended theorem on `cEnv1`. -/
theorem find_routes_disconnected_pair_error_witness :
    ∃ e, find_routes cEnv1 (0, 0) (0, 1) 500 = .error e :=
  find_routes_disconnected_pair_error cEnv1 (0, 0) (0, 1) 500
    [(0, 0), (0, 1), (5, 0), (5, 1)] [(0, 1), (0, 0), (5, 1), (5, 0)]
    (0, 0) (5, 1) (by decide) (by decide) (by decide)
    (show ¬ Relation.ReflTransGen (Adj cEnv1.graph)
      (cEnv1.coordStop (0, 0)) (cEnv1.coordStop (5, 1)) from not_reach_cGraph1_AD)

/-! ### Claim C5 -/

/-- C5: on a path whose consecutive stops are graph-adjacent, decomposition
succeeds and yields exactly `n - 1` segment dicts; segment `i` carries, under
its line-collection key, exactly the list of lines over all parallel edges of
hop `i`, which is nonempty; in particular a single-stop path (`rest = []`)
yields zero segments since the segment count is `n - 1 = 0`. -/
theorem parse_route_segments (g : MultiGraph) (sc : StopId → Coord)
    (a : StopId) (rest : List StopId)
    (hchain : List.Chain' (Adj g) (a :: rest)) :
    ∃ segs, parse_route g sc (a :: rest) = .ok segs ∧
      segs.length = (a :: rest).length - 1 ∧
      ∀ i, i < segs.length →
        dictGetV (segs.getD i []) "busses" =
          some (PyVal.strs (lines_connecting_stops g
            ((a :: rest).getD i "") ((a :: rest).getD (i+1) ""))) ∧
        lines_connecting_stops g ((a :: rest).getD i "") ((a :: rest).getD (i+1) "") ≠ [] := by
  refine ⟨segList g sc a rest, parse_route_eq_segList hchain, ?_, ?_⟩
  · rw [segList_length, List.length_cons]
    omega
  · intro i hi
    rw [segList_length] at hi
    constructor
    · rw [segList_getD rest a i hi, segDict_busses]
    · exact chain'_getD (a :: rest) hchain i (by rw [List.length_cons]; omega)

/-- Witness for C5 on the three-stop chain. -/
theorem parse_route_segments_witness :
    ∃ segs, parse_route cGraph3 cSC ["A", "B", "C"] = .ok segs ∧
      segs.length = (["A", "B", "C"].length) - 1 ∧
      ∀ i, i < segs.length →
        dictGetV (segs.getD i []) "busses" =
          some (PyVal.strs (lines_connecting_stops cGraph3
            ((["A", "B", "C"]).getD i "") ((["A", "B", "C"]).getD (i+1) ""))) ∧
        lines_connecting_stops cGraph3
          ((["A", "B", "C"]).getD i "") ((["A", "B", "C"]).getD (i+1) "") ≠ [] :=
  parse_route_segments cGraph3 cSC "A" ["B", "C"]
    (chain'_cons_cons (by decide) (chain'_cons_cons (by decide) (List.chain'_singleton _)))

/-! ### Claim C10 -/

/-- C10: on an adjacency-respecting path of length at least two, the segments
chain correctly: the first board id is the path head, the last deboard id is
the path's last stop, each deboard id equals the next board id, and every
board/deboard dict carries the lat/lng of the stop-coordinate lookup of its
own id. -/
theorem parse_route_chaining (g : MultiGraph) (sc : StopId → Coord)
    (a b : StopId) (rest : List StopId)
    (hchain : List.Chain' (Adj g) (a :: b :: rest)) :
    ∃ segs, parse_route g sc (a :: b :: rest) = .ok segs ∧
      segStopId (segs.getD 0 []) "board" = some a ∧
      segStopId (segs.getD (segs.length - 1) []) "deboard" =
        some ((a :: b :: rest).getLastD "") ∧
      (∀ i, i + 1 < segs.length →
        segStopId (segs.getD i []) "deboard" = segStopId (segs.getD (i+1) []) "board") ∧
      (∀ seg ∈ segs, ∀ w s, (w = "board" ∨ w = "deboard") →
        segStopId seg w = some s →
        segStopLat seg w = some (sc s).1 ∧ segStopLng seg w = some (sc s).2) := by
  have hlen : (segList g sc a (b :: rest)).length = (b :: rest).length :=
    segList_length (b :: rest) a
  refine ⟨segList g sc a (b :: rest), parse_route_eq_segList hchain, ?_, ?_, ?_, ?_⟩
  · rw [show segList g sc a (b :: rest) =
      segDict sc (lines_connecting_stops g a b) a b :: segList g sc b rest from rfl,
      List.getD_cons_zero, segDict_board_id]
  · have hidx : (segList g sc a (b :: rest)).length - 1 < (b :: rest).length := by
      rw [hlen, List.length_cons]
      omega
    rw [segList_getD (b :: rest) a _ hidx, segDict_deboard_id, hlen]
    have h2 : ((b :: rest).length - 1) + 1 = (a :: b :: rest).length - 1 := by
      simp only [List.length_cons]
      omega
    rw [h2, getD_eq_getLastD "" (a :: b :: rest) (List.cons_ne_nil _ _)]
  · intro i hi
    rw [hlen] at hi
    rw [segList_getD (b :: rest) a i (by omega), segList_getD (b :: rest) a (i+1) hi,
      segDict_deboard_id, segDict_board_id]
  · intro seg hseg w s hw hid
    obtain ⟨u, v, rfl⟩ := segList_mem (b :: rest) a seg hseg
    rcases hw with rfl | rfl
    · rw [segDict_board_id] at hid
      injection hid with hus
      subst hus
      exact ⟨segDict_board_lat sc _ u v, segDict_board_lng sc _ u v⟩
    · rw [segDict_deboard_id] at hid
      injection hid with hvs
      subst hvs
      exact ⟨segDict_deboard_lat sc _ u v, segDict_deboard_lng sc _ u v⟩

/-- Witness for C10 on the four-stop chain. -/
theorem parse_route_chaining_witness :
    ∃ segs, parse_route cGraph4 cSC ["A", "B", "C", "D"] = .ok segs ∧
      segStopId (segs.getD 0 []) "board" = some "A" ∧
      segStopId (segs.getD (segs.length - 1) []) "deboard" =
        some ((["A", "B", "C", "D"]).getLastD "") ∧
      (∀ i, i + 1 < segs.length →
        segStopId (segs.getD i []) "deboard" = segStopId (segs.getD (i+1) []) "board") ∧
      (∀ seg ∈ segs, ∀ w s, (w = "board" ∨ w = "deboard") →
        segStopId seg w = some s →
        segStopLat seg w = some (cSC s).1 ∧ segStopLng seg w = some (cSC s).2) :=
  parse_route_chaining cGraph4 cSC "A" "B" ["C", "D"]
    (chain'_cons_cons (by decide) (chain'_cons_cons (by decide)
      (chain'_cons_cons (by decide) (List.chain'_singleton _))))

/-! ### Claim C7 -/

theorem parse_route_go_shape {g : MultiGraph} {sc : StopId → Coord} :
    ∀ (rest : List StopId) (prev : StopId) (segs : List PyDict),
      parse_route_go g sc prev rest = .ok segs →
      ∀ seg ∈ segs, ∃ u v, seg = segDict sc (lines_connecting_stops g u v) u v := by
  intro rest
  induction rest with
  | nil =>
    intro prev segs h seg hseg
    cases h
    cases hseg
  | cons nxt rest' ih =>
    intro prev segs h seg hseg
    rw [parse_route_go] at h
    by_cases hl : lines_connecting_stops g prev nxt = []
    · rw [if_pos hl] at h
      cases h
    · rw [if_neg hl] at h
      cases hrec : parse_route_go g sc nxt rest' with
      | error e => rw [hrec] at h; cases h
      | ok segs' =>
        rw [hrec] at h
        cases h
        rcases List.mem_cons.mp hseg with rfl | hseg'
        · exact ⟨prev, nxt, rfl⟩
        · exact ih nxt segs' hrec seg hseg'

/-- C7 counterexample: the planner's segment dict carries the per-hop line
collection under the key `'busses'` — looking up `'lines'` finds nothing, so
the claimed `{ lines: [...], board: ..., deboard: ... }` shape is wrong. -/
theorem find_routes_lines_key_cx :
    find_routes cEnv4 (0, 0) (0, 1000) 500 = .ok [[cSeg4]] ∧
      dictGetV cSeg4 "lines" = none ∧
      dictGetV cSeg4 "busses" = some (PyVal.strs ["L1"]) := by
  refine ⟨by decide, rfl, rfl⟩

/-- C7 (amended): every segment of every Journey returned by the planner
entry point is an ordered dict with keys `busses`, `board`, `deboard` (in
that order); the per-hop line collection is carried under the key `'busses'`,
not `'lines'`. -/
theorem find_routes_busses_key (env : Env) (origin destination : Coord)
    (max_walk : ℚ) (journeys : List (List PyDict)) (j : List PyDict)
    (seg : PyDict)
    (h : find_routes env origin destination max_walk = .ok journeys)
    (hj : j ∈ journeys) (hseg : seg ∈ j) :
    seg.map Prod.fst = ["busses", "board", "deboard"] ∧
    dictGetV seg "lines" = none ∧
    (∃ ls, dictGetV seg "busses" = some (PyVal.strs ls)) := by
  cases hk1 : k_nearest_stop_coords env.treeStops env.dist origin.1 origin.2 10 with
  | none =>
    rw [find_routes, hk1] at h
    simp at h
  | some os0 =>
    cases hk2 : k_nearest_stop_coords env.treeStops env.dist destination.1 destination.2 10 with
    | none =>
      rw [find_routes, hk1, hk2] at h
      simp at h
    | some ds0 =>
      rw [find_routes_unfold env origin destination max_walk os0 ds0 hk1 hk2] at h
      cases hto : transit_options_of env (filter_within_walk env.dist origin os0 max_walk)
          (filter_within_walk env.dist destination ds0 max_walk) with
      | error e =>
        rw [hto] at h
        simp at h
      | ok opts =>
        rw [hto] at h
        have h2 : (match fewest_changes_filter opts with
            | .error e => (.error e : Except PlanError (List (List PyDict)))
            | .ok kept =>
              exceptMapM (fun t => parse_route env.graph env.stopCoords t) kept) =
            .ok journeys := h
        cases hff : fewest_changes_filter opts with
        | error e =>
          rw [hff] at h2
          simp at h2
        | ok kept =>
          rw [hff] at h2
          have h3 : exceptMapM (fun t => parse_route env.graph env.stopCoords t) kept =
              .ok journeys := h2
          obtain ⟨t, ht, hpt⟩ := exceptMapM_ok_mem h3 hj
          cases t with
          | nil => simp [parse_route] at hpt
          | cons prev rest =>
            have hpt' : parse_route_go env.graph env.stopCoords prev rest = .ok j := hpt
            obtain ⟨u, v, rfl⟩ := parse_route_go_shape rest prev j hpt' seg hseg
            exact ⟨segDict_keys env.stopCoords _ u v, segDict_lines_none env.stopCoords _ u v,
              ⟨_, segDict_busses env.stopCoords _ u v⟩⟩

/-- Witness for C7's amended theorem at the concrete one-hop journey. -/
theorem find_routes_busses_key_witness :
    cSeg4.map Prod.fst = ["busses", "board", "deboard"] ∧
      dictGetV cSeg4 "lines" = none ∧
      (∃ ls, dictGetV cSeg4 "busses" = some (PyVal.strs ls)) :=
  find_routes_busses_key cEnv4 (0, 0) (0, 1000) 500 [[cSeg4]] [cSeg4] cSeg4
    (by decide) (by decide) (by decide)

end ETA
